import Mathlib

/-!
Verification of the promoter-transactions pipeline (src/main.py).

The pipeline ingests a disclosure table, validates its 29-column schema,
applies five row filters, prunes columns, and derives per-company totals,
per-company max-transaction records and a combined summary with a
9,000,000 materiality threshold on the buy total.

Cells are modelled as `Option` values (`none` = pandas NaN).  Numeric
cells are modelled after `pd.to_numeric(..., errors = coerce)`: a cell is
either a rational number or `none`.  Text cells are `Option String`;
`astype(str)` renders a NaN cell as the literal string "nan", which the
model reproduces with `cellStr`.
-/

set_option allowUnsafeReducibility true

attribute [semireducible] Rat.add Rat.mul Rat.inv Rat.sub

/-- Characters stripped by pandas `.str.strip()` (whitespace). -/
def isWS (c : Char) : Bool :=
  c == ' ' || c == '\t' || c == '\n' || c == '\r'

/-- Strip leading and trailing whitespace from a character list. -/
def stripChars (l : List Char) : List Char :=
  ((l.dropWhile isWS).reverse.dropWhile isWS).reverse

/-- `.str.strip()` on a string. -/
def stripStr (s : String) : String :=
  String.mk (stripChars s.data)

/-- `.str.strip().str.lower()` on a string. -/
def normLower (s : String) : String :=
  String.mk ((stripChars s.data).map Char.toLower)

/-- `.str.strip().str.upper()` on a string. -/
def normUpper (s : String) : String :=
  String.mk ((stripChars s.data).map Char.toUpper)

/-- `astype(str)` on a cell: a missing value renders as the text "nan". -/
def cellStr : Option String → String
  | some s => s
  | none => "nan"

/-- Is `pat` a prefix of the second list (character-wise)? -/
def prefixOfL : List Char → List Char → Bool
  | [], _ => true
  | _ :: _, [] => false
  | a :: as, b :: bs => a == b && prefixOfL as bs

/-- Does `pat` occur as a contiguous sublist? -/
def subListL (pat : List Char) : List Char → Bool
  | [] => prefixOfL pat []
  | c :: cs => prefixOfL pat (c :: cs) || subListL pat cs

/-- `.str.contains(pat)` (plain substring containment). -/
def containsSub (hay pat : String) : Bool :=
  subListL pat.data hay.data

/-- One disclosure row, restricted to the fields the analysed pipeline
reads.  Numeric fields are post-`to_numeric` (`none` = NaN / non-numeric
text); text fields are raw cells (`none` = NaN). -/
structure Row where
  symbol : String
  company : String
  regulation : Option String
  category : Option String
  transType : Option String
  mode : Option String
  secTypePrior : Option String
  shares : Option ℚ
  value : Option ℚ
  pctPrior : Option ℚ
  pctPost : Option ℚ
  dateFrom : Option String
deriving DecidableEq

/-- Filter 1 (main.py line 147):
`df[df[REGULATION].astype(str).str.strip() != "7(3)"]`.
Note there is no `notna` guard: a NaN cell becomes the text "nan" and
passes the test. -/
def regulationPred (r : Row) : Bool :=
  stripStr (cellStr r.regulation) != "7(3)"

/-- Filter 2 (lines 153-154): CATEGORY OF PERSON not-NaN and, normalized,
one of "promoter group" / "promoters". -/
def categoryPred (r : Row) : Bool :=
  r.category.isSome &&
    (normLower (cellStr r.category) == "promoter group" ||
     normLower (cellStr r.category) == "promoters")

/-- Filter 3 (lines 159-160): transaction type not-NaN and, normalized,
one of "buy" / "sell". -/
def transTypePred (r : Row) : Bool :=
  r.transType.isSome &&
    (normLower (cellStr r.transType) == "buy" ||
     normLower (cellStr r.transType) == "sell")

/-- Filter 4 (lines 165-166): mode of acquisition not-NaN and, normalized,
one of "market sale" / "market purchase". -/
def modePred (r : Row) : Bool :=
  r.mode.isSome &&
    (normLower (cellStr r.mode) == "market sale" ||
     normLower (cellStr r.mode) == "market purchase")

/-- Filter 5 (lines 172-174): type of security (prior) not-NaN and its
normalization contains the substring "equity share". -/
def secPred (r : Row) : Bool :=
  r.secTypePrior.isSome &&
    containsSub (normLower (cellStr r.secTypePrior)) "equity share"

/-- The five filter predicates, in source order (lines 146-175). -/
def theFilters : List (Row → Bool) :=
  [regulationPred, categoryPred, transTypePred, modePred, secPred]

/-- Apply a list of row predicates as sequential filter stages. -/
def applyFilters (ps : List (Row → Bool)) (rows : List Row) : List Row :=
  ps.foldl (fun acc p => acc.filter p) rows

/-- The filter pipeline of lines 146-175: five sequential filters. -/
def filterPipeline (rows : List Row) : List Row :=
  ((((rows.filter regulationPred).filter categoryPred).filter
      transTypePred).filter modePred).filter secPred

/-- A fully valid row used as a template for the concrete examples. -/
def baseRow : Row :=
  { symbol := "SYM"
    company := "C"
    regulation := some "SEBI (PIT),2015"
    category := some "Promoters"
    transType := some "Buy"
    mode := some "Market Purchase"
    secTypePrior := some "Equity Shares"
    shares := some 100
    value := some 1000
    pctPrior := some 1
    pctPost := some 2
    dateFrom := some "01-JAN-2024" }

/-- Pandas `Series.max()` with NaN values already removed: the maximum of
a list of rationals, `none` on the empty list. -/
def listMaxQ : List ℚ → Option ℚ
  | [] => none
  | h :: t => some (t.foldl max h)

/-- `isBuy` as the analytics section computes it (line 366-367):
`astype(str).str.strip().str.upper() == "BUY"`. -/
def isBuy (r : Row) : Bool :=
  normUpper (cellStr r.transType) == "BUY"

/-- Sell-side test of the analytics section (line 368). -/
def isSell (r : Row) : Bool :=
  normUpper (cellStr r.transType) == "SELL"

/-- The buy rows of one company, in original order (lines 444, 453). -/
def buyRowsOf (rows : List Row) (c : String) : List Row :=
  (rows.filter isBuy).filter (fun r => r.company == c)

/-- The sell rows of one company, in original order (lines 445, 454). -/
def sellRowsOf (rows : List Row) (c : String) : List Row :=
  (rows.filter isSell).filter (fun r => r.company == c)

/-- Max value on one side (lines 464-471): maximum of the non-null values,
`none` when every value is null. The code takes the value at `idxmax()`,
which is the maximum itself; no date is captured here. -/
def maxValueField (rs : List Row) : Option ℚ :=
  listMaxQ (rs.filterMap (fun r => r.value))

/-- Max-shares selection (lines 474-499): take the maximum non-null share
count `m`; among the rows whose share count equals `m`, take the maximum
non-null value `mv` (if every such value is null, report nothing); among
the rows tied at `(m, mv)`, take the first in original order and report
its share count (= `m`) and its date cell. -/
def maxSharesResult (rs : List Row) : Option (ℚ × Option String) :=
  match listMaxQ (rs.filterMap (fun r => r.shares)) with
  | none => none
  | some m =>
    match listMaxQ ((rs.filter (fun r => r.shares == some m)).filterMap
        (fun r => r.value)) with
    | none => none
    | some mv =>
      match ((rs.filter (fun r => r.shares == some m)).filter
          (fun r => r.value == some mv)).head? with
      | none => none
      | some r0 => some (m, r0.dateFrom)

/-- One side of a company's max-transaction record (lines 456-506).
There are exactly three fields per side: the max value, the max share
count, and a single date, which belongs to the max-shares selection.
`maxDate = some d` means a row was selected and its date cell was `d`
(itself possibly NaN). -/
structure SideMax where
  maxValue : Option ℚ
  maxShares : Option ℚ
  maxDate : Option (Option String)
deriving DecidableEq

/-- Per-side max computation (lines 459-506): when the side has no rows
all three fields are null, otherwise max value and the max-shares
selection are computed independently. -/
def sideMax (rs : List Row) : SideMax :=
  if rs.isEmpty then ⟨none, none, none⟩
  else
    ⟨maxValueField rs,
     (maxSharesResult rs).map (fun p => p.1),
     (maxSharesResult rs).map (fun p => p.2)⟩

/-- Per-company max-transaction record (lines 452-558). -/
structure MaxRec where
  company : String
  buy : SideMax
  sell : SideMax
deriving DecidableEq

/-- Build the max-transaction record of one company (lines 452-558). -/
def maxRecFor (rows : List Row) (c : String) : MaxRec :=
  ⟨c, sideMax (buyRowsOf rows c), sideMax (sellRowsOf rows c)⟩

/-- Display form of a max-transaction record after the null-fill of lines
565-576: values `fillna(0).round(2)`, share counts `fillna(0).astype(int)`
(int cast truncates toward zero), dates `fillna("N/A")`. -/
structure MaxFmt where
  company : String
  maxBuyDate : String
  maxBuyValue : ℚ
  numMaxBuyShares : ℤ
  maxSellDate : String
  maxSellValue : ℚ
  numMaxSellShares : ℤ
deriving DecidableEq

/-- Round-half-to-even to an integer (numpy/pandas `round`). -/
def rhe (x : ℚ) : ℤ :=
  let n := Rat.floor x
  let f := x - n
  if f < 1 / 2 then n
  else if 1 / 2 < f then n + 1
  else if n % 2 = 0 then n else n + 1

/-- `Series.round(k)`: round to `k` decimal places, half to even. -/
def roundTo (k : ℕ) (x : ℚ) : ℚ :=
  (rhe (x * (10 : ℚ) ^ k) : ℚ) / (10 : ℚ) ^ k

/-- `astype(int)` on a float column: truncation toward zero. -/
def truncInt (x : ℚ) : ℤ :=
  if 0 ≤ x then Rat.floor x else -Rat.floor (-x)

/-- Null-fill and number formatting of a max record (lines 565-576). -/
def fmtMax (m : MaxRec) : MaxFmt :=
  { company := m.company
    maxBuyDate :=
      match m.buy.maxDate with
      | some (some d) => d
      | _ => "N/A"
    maxBuyValue := roundTo 2 (m.buy.maxValue.getD 0)
    numMaxBuyShares := truncInt (m.buy.maxShares.getD 0)
    maxSellDate :=
      match m.sell.maxDate with
      | some (some d) => d
      | _ => "N/A"
    maxSellValue := roundTo 2 (m.sell.maxValue.getD 0)
    numMaxSellShares := truncInt (m.sell.maxShares.getD 0) }

/-- First occurrences, in order of first appearance (pandas `unique`,
line 450). -/
def uniqueFirst (l : List String) : List String :=
  l.foldl (fun acc c => if c ∈ acc then acc else acc ++ [c]) []

/-- Insert into a ≤-sorted list of strings. -/
def insertStr (x : String) : List String → List String
  | [] => [x]
  | h :: t => if x < h then x :: h :: t else h :: insertStr x t

/-- Ascending insertion sort on strings (`sort_values`, case-sensitive
ordinal order). -/
def sortStr (l : List String) : List String :=
  l.foldr insertStr []

/-- The max-transactions table (lines 447-576): one formatted record per
distinct company of the input, sorted by company name. -/
def maxTransactionsSummary (rows : List Row) : List MaxFmt :=
  (sortStr (uniqueFirst (rows.map (fun r => r.company)))).map
    (fun c => fmtMax (maxRecFor rows c))

/-- Per-row shareholding delta (line 363): `% POST - % SHAREHOLDING
(PRIOR)` after numeric coercion; NaN on either side propagates to NaN. -/
def rowDelta (r : Row) : Option ℚ :=
  match r.pctPost, r.pctPrior with
  | some a, some b => some (a - b)
  | _, _ => none

/-- Pandas groupby-`sum` of a nullable column: null entries are skipped,
the empty sum is 0 (this also reproduces the `fillna(0)` defaults of the
outer merge, lines 402-418). -/
def sumOpt (f : Row → Option ℚ) (rs : List Row) : ℚ :=
  (rs.filterMap f).sum

/-- Representative symbol of a company (groupby `first` on SYMBOL, lines
372-373, with the sell-only fallback of lines 406-408 that maps the
company to the first row of the whole table). -/
def symbolFor (rows : List Row) (c : String) : String :=
  match (buyRowsOf rows c).head? with
  | some r => r.symbol
  | none =>
    match (rows.filter (fun r => r.company == c)).head? with
    | some r => r.symbol
    | none => ""

/-- Raw (pre-formatting) per-company totals record: the outer merge of
the buy and sell groupby sums (lines 370-420). -/
structure TotalsRaw where
  company : String
  symbol : String
  totSharesBuy : ℚ
  totValueBuy : ℚ
  deltaBuy : ℚ
  totSharesSell : ℚ
  totValueSell : ℚ
  deltaSell : ℚ
deriving DecidableEq

/-- Raw totals of one company (lines 370-420): each side sums the share
counts, values and per-row deltas of that company's rows on that side; a
side with no rows contributes 0 (the merge `fillna(0)`). -/
def totalsFor (rows : List Row) (c : String) : TotalsRaw :=
  { company := c
    symbol := symbolFor rows c
    totSharesBuy := sumOpt (fun r => r.shares) (buyRowsOf rows c)
    totValueBuy := sumOpt (fun r => r.value) (buyRowsOf rows c)
    deltaBuy := sumOpt rowDelta (buyRowsOf rows c)
    totSharesSell := sumOpt (fun r => r.shares) (sellRowsOf rows c)
    totValueSell := sumOpt (fun r => r.value) (sellRowsOf rows c)
    deltaSell := sumOpt rowDelta (sellRowsOf rows c) }

/-- Formatted totals record (lines 427-432): share totals
`fillna(0).astype(int)` (truncation), value totals `round(2)`, deltas
`round(4)`. -/
structure TotalsFmt where
  company : String
  symbol : String
  totSharesBuy : ℤ
  totValueBuy : ℚ
  deltaBuy : ℚ
  totSharesSell : ℤ
  totValueSell : ℚ
  deltaSell : ℚ
deriving DecidableEq

/-- Number formatting of lines 427-432 applied to a raw totals record. -/
def fmtTotals (rows : List Row) (c : String) : TotalsFmt :=
  { company := (totalsFor rows c).company
    symbol := (totalsFor rows c).symbol
    totSharesBuy := truncInt (totalsFor rows c).totSharesBuy
    totValueBuy := roundTo 2 (totalsFor rows c).totValueBuy
    deltaBuy := roundTo 4 (totalsFor rows c).deltaBuy
    totSharesSell := truncInt (totalsFor rows c).totSharesSell
    totValueSell := roundTo 2 (totalsFor rows c).totValueSell
    deltaSell := roundTo 4 (totalsFor rows c).deltaSell }

/-- The companies of the totals table before the materiality filter: the
union of the buy-groupby and sell-groupby keys (lines 370-424), sorted by
company name (line 424). -/
def tradedCompanies (rows : List Row) : List String :=
  sortStr (uniqueFirst
    ((rows.filter (fun r => isBuy r || isSell r)).map (fun r => r.company)))

/-- The transactions-summary table (lines 370-435): one formatted totals
record per traded company, sorted by company, keeping only companies
whose (rounded) total buy value is at least 9,000,000 (line 435). -/
def transactionsSummary (rows : List Row) : List TotalsFmt :=
  ((tradedCompanies rows).map (fun c => fmtTotals rows c)).filter
    (fun t => 9000000 ≤ t.totValueBuy)

/-- One row of the combined summary (lines 579-652): the outer merge of a
totals record (`none` when the company is absent from the transactions
summary, i.e. its totals cells are NaN) with a formatted max record,
plus the derived per-share averages of the max transactions. -/
structure CombRec where
  company : String
  tot : Option TotalsFmt
  maxf : Option MaxFmt
  maxAvgBuy : ℚ
  maxAvgSell : ℚ
deriving DecidableEq

/-- `Max Avg` of one side (lines 595-606): value over shares when the
share count is present and positive, else 0; rounded to 2 decimals. -/
def maxAvg (value : ℚ) (ns : ℤ) : ℚ :=
  if 0 < ns then roundTo 2 (value / (ns : ℚ)) else 0

/-- The combined summary (lines 579-652): outer merge of the transactions
summary and the max-transactions summary on company, re-filtered by
`Total Value of Share Buy >= 9000000` (line 588; a NaN total — company
absent from the transactions summary — fails the comparison and is
dropped), sorted by company, with the Max Avg columns added.
`combinedRecFor` is one merged row before that filter. -/
def combinedRecFor (rows : List Row) (c : String) : CombRec :=
  let t := (transactionsSummary rows).find? (fun x => x.company == c)
  let m := (maxTransactionsSummary rows).find? (fun x => x.company == c)
  { company := c
    tot := t
    maxf := m
    maxAvgBuy :=
      match m with
      | some mf => maxAvg mf.maxBuyValue mf.numMaxBuyShares
      | none => 0
    maxAvgSell :=
      match m with
      | some mf => maxAvg mf.maxSellValue mf.numMaxSellShares
      | none => 0 }

/-- Company keys of the outer merge of line 579, sorted (line 591). -/
def combinedCompanies (rows : List Row) : List String :=
  sortStr (uniqueFirst
    ((transactionsSummary rows).map (fun t => t.company) ++
     (maxTransactionsSummary rows).map (fun m => m.company)))

/-- The combined summary table (lines 579-652). -/
def combinedSummary (rows : List Row) : List CombRec :=
  ((combinedCompanies rows).map (fun c => combinedRecFor rows c)).filter
    (fun rec =>
      match rec.tot with
      | some t => 9000000 ≤ t.totValueBuy
      | none => false)

/-- The 29 required columns (lines 13-43). -/
def REQUIRED_COLUMNS : List String :=
  ["SYMBOL",
   "COMPANY",
   "REGULATION",
   "NAME OF THE ACQUIRER/DISPOSER",
   "CATEGORY OF PERSON",
   "TYPE OF SECURITY (PRIOR)",
   "NO. OF SECURITY (PRIOR)",
   "% SHAREHOLDING (PRIOR)",
   "TYPE OF SECURITY (ACQUIRED/DISPLOSED)",
   "NO. OF SECURITIES (ACQUIRED/DISPLOSED)",
   "VALUE OF SECURITY (ACQUIRED/DISPLOSED)",
   "ACQUISITION/DISPOSAL TRANSACTION TYPE",
   "TYPE OF SECURITY (POST)",
   "NO. OF SECURITY (POST)",
   "% POST",
   "DATE OF ALLOTMENT/ACQUISITION FROM",
   "DATE OF ALLOTMENT/ACQUISITION TO",
   "DATE OF INITMATION TO COMPANY",
   "MODE OF ACQUISITION",
   "DERIVATIVE TYPE SECURITY",
   "DERIVATIVE CONTRACT SPECIFICATION",
   "NOTIONAL VALUE(BUY)",
   "NUMBER OF UNITS/CONTRACT LOT SIZE (BUY)",
   "NOTIONAL VALUE(SELL)",
   "NUMBER OF UNITS/CONTRACT LOT SIZE  (SELL)",
   "EXCHANGE",
   "REMARK",
   "BROADCASTE DATE AND TIME",
   "XBRL"]

/-- Successful schema validation: the canonical column order the table is
reindexed to (line 140) and the extra columns reported as a non-fatal
warning and discarded (lines 134-137); an empty `extras` list means no
warning. -/
structure SchemaOk where
  columns : List String
  extras : List String
deriving DecidableEq

/-- Schema validation (lines 117-140): trim the header cells, compute the
missing required columns; any missing column is fatal (`st.stop`, no
downstream processing) and the error carries the missing names; otherwise
extras are warned about and dropped and the table is reordered to the
canonical 29-column sequence. -/
def validate (header : List String) : Except (List String) SchemaOk :=
  if REQUIRED_COLUMNS.filter (fun c => decide (c ∉ header.map stripStr)) = [] then
    Except.ok ⟨REQUIRED_COLUMNS,
      (header.map stripStr).filter (fun c => decide (c ∉ REQUIRED_COLUMNS))⟩
  else
    Except.error (REQUIRED_COLUMNS.filter (fun c => decide (c ∉ header.map stripStr)))

deriving instance DecidableEq for Except

/-! Helper lemmas. -/

theorem find?_congr {α : Type} {p q : α → Bool} (h : ∀ a, p a = q a)
    (l : List α) : l.find? p = l.find? q := by
  induction l with
  | nil => rfl
  | cons a t ih => simp [List.find?_cons, h a, ih]

theorem foldl_max_mem (h : ℚ) (t : List ℚ) : t.foldl max h ∈ h :: t := by
  induction t generalizing h with
  | nil => simp [List.foldl]
  | cons a t ih =>
    have := ih (max h a)
    rcases List.mem_cons.mp this with h1 | h1
    · rcases max_choice h a with h2 | h2 <;> rw [List.foldl_cons, h1, h2] <;> simp
    · simp [List.foldl_cons, List.mem_cons, h1]

theorem le_foldl_max (h : ℚ) (t : List ℚ) : ∀ x ∈ h :: t, x ≤ t.foldl max h := by
  induction t generalizing h with
  | nil => intro x hx; simp at hx; simp [hx, List.foldl]
  | cons a t ih =>
    intro x hx
    rw [List.foldl_cons]
    rcases List.mem_cons.mp hx with h1 | h1
    · calc x = h := h1
        _ ≤ max h a := le_max_left _ _
        _ ≤ t.foldl max (max h a) := ih (max h a) _ (List.mem_cons_self _ _)
    · rcases List.mem_cons.mp h1 with h2 | h2
      · calc x = a := h2
          _ ≤ max h a := le_max_right _ _
          _ ≤ t.foldl max (max h a) := ih (max h a) _ (List.mem_cons_self _ _)
      · exact ih (max h a) x (List.mem_cons_of_mem _ h2)

theorem listMaxQ_eq_none {l : List ℚ} : listMaxQ l = none ↔ l = [] := by
  cases l <;> simp [listMaxQ]

theorem listMaxQ_mem {l : List ℚ} {m : ℚ} (h : listMaxQ l = some m) : m ∈ l := by
  cases l with
  | nil => simp [listMaxQ] at h
  | cons a t =>
    simp only [listMaxQ, Option.some.injEq] at h
    rw [← h]; exact foldl_max_mem a t

theorem listMaxQ_le {l : List ℚ} {m : ℚ} (h : listMaxQ l = some m) :
    ∀ x ∈ l, x ≤ m := by
  cases l with
  | nil => simp
  | cons a t =>
    simp only [listMaxQ, Option.some.injEq] at h
    intro x hx; rw [← h]; exact le_foldl_max a t x hx

theorem head?_filter_eq_find? {α : Type} (p : α → Bool) (l : List α) :
    (l.filter p).head? = l.find? p := by
  induction l with
  | nil => rfl
  | cons a t ih => by_cases h : p a <;> simp [List.filter_cons, List.find?_cons, h, ih]

theorem mem_foldl_uniq (l : List String) :
    ∀ (acc : List String) (c : String),
      (c ∈ l.foldl (fun acc x => if x ∈ acc then acc else acc ++ [x]) acc ↔
        c ∈ acc ∨ c ∈ l) := by
  induction l with
  | nil => intro acc c; simp [List.foldl]
  | cons a t ih =>
    intro acc c
    rw [List.foldl_cons, ih]
    by_cases h : a ∈ acc
    · simp only [if_pos h, List.mem_cons]
      constructor
      · rintro (h1 | h1)
        · exact Or.inl h1
        · exact Or.inr (Or.inr h1)
      · rintro (h1 | h1 | h1)
        · exact Or.inl h1
        · exact Or.inl (h1 ▸ h)
        · exact Or.inr h1
    · simp only [if_neg h, List.mem_append, List.mem_singleton, List.mem_cons]
      tauto

theorem mem_uniqueFirst {l : List String} {c : String} :
    c ∈ uniqueFirst l ↔ c ∈ l := by
  rw [uniqueFirst, mem_foldl_uniq]; simp

theorem mem_insertStr {x c : String} {l : List String} :
    c ∈ insertStr x l ↔ c = x ∨ c ∈ l := by
  induction l with
  | nil => simp [insertStr]
  | cons a t ih =>
    rw [insertStr]
    split_ifs
    · simp [List.mem_cons]
    · simp only [List.mem_cons, ih]
      tauto

theorem mem_sortStr {l : List String} {c : String} :
    c ∈ sortStr l ↔ c ∈ l := by
  induction l with
  | nil => simp [sortStr]
  | cons a t ih =>
    show c ∈ insertStr a (sortStr t) ↔ _
    rw [mem_insertStr, ih, List.mem_cons]

theorem rhe_abs (x : ℚ) : |(rhe x : ℚ) - x| ≤ 1 / 2 := by
  have hfl : (Rat.floor x : ℚ) ≤ x := Int.floor_le x
  have hfu : x < Rat.floor x + 1 := Int.lt_floor_add_one x
  unfold rhe
  set n := Rat.floor x with hn
  by_cases h1 : x - n < 1 / 2
  · rw [if_pos h1, abs_le]
    constructor <;> linarith
  · rw [if_neg h1]
    by_cases h2 : 1 / 2 < x - n
    · rw [if_pos h2, abs_le]
      push_cast
      constructor <;> linarith
    · have h3 : x - (n : ℚ) = 1 / 2 := le_antisymm (not_lt.mp h2) (not_lt.mp h1)
      rw [if_neg h2]
      by_cases h4 : n % 2 = 0 <;> [rw [if_pos h4]; rw [if_neg h4]] <;>
        rw [abs_le] <;> push_cast <;> constructor <;> linarith

theorem truncInt_abs (x : ℚ) : |(truncInt x : ℚ) - x| < 1 := by
  unfold truncInt
  by_cases h : 0 ≤ x
  · rw [if_pos h, abs_lt]
    have hfl : (Rat.floor x : ℚ) ≤ x := Int.floor_le x
    have hfu : x < Rat.floor x + 1 := Int.lt_floor_add_one x
    constructor <;> linarith
  · rw [if_neg h, abs_lt]
    have hfl : (Rat.floor (-x) : ℚ) ≤ -x := Int.floor_le (-x)
    have hfu : -x < Rat.floor (-x) + 1 := Int.lt_floor_add_one (-x)
    push_cast
    constructor <;> linarith

theorem mem_tradedCompanies {rows : List Row} {c : String} :
    c ∈ tradedCompanies rows ↔
      ∃ r ∈ rows, (isBuy r || isSell r) = true ∧ r.company = c := by
  unfold tradedCompanies
  rw [mem_sortStr, mem_uniqueFirst]
  simp only [List.mem_map, List.mem_filter]
  constructor
  · rintro ⟨r, ⟨hr, hp⟩, hc⟩
    exact ⟨r, hr, hp, hc⟩
  · rintro ⟨r, hr, hp, hc⟩
    exact ⟨r, ⟨hr, hp⟩, hc⟩

theorem fmtTotals_company (rows : List Row) (c : String) :
    (fmtTotals rows c).company = c := rfl

theorem mem_transactionsSummary {rows : List Row} {t : TotalsFmt} :
    t ∈ transactionsSummary rows ↔
      ((∃ c ∈ tradedCompanies rows, t = fmtTotals rows c) ∧
        9000000 ≤ t.totValueBuy) := by
  unfold transactionsSummary
  rw [List.mem_filter]
  simp only [List.mem_map, decide_eq_true_eq]
  constructor
  · rintro ⟨⟨c, hc, ht⟩, hle⟩
    exact ⟨⟨c, hc, ht.symm⟩, hle⟩
  · rintro ⟨⟨c, hc, ht⟩, hle⟩
    exact ⟨⟨c, hc, ht.symm⟩, hle⟩

theorem combinedRecFor_company (rows : List Row) (c : String) :
    (combinedRecFor rows c).company = c := rfl

theorem mem_combinedSummary {rows : List Row} {rec : CombRec}
    (h : rec ∈ combinedSummary rows) :
    ∃ t, rec.tot = some t ∧ 9000000 ≤ t.totValueBuy ∧
      t ∈ transactionsSummary rows ∧ t.company = rec.company := by
  unfold combinedSummary at h
  rw [List.mem_filter] at h
  obtain ⟨hmem, hpred⟩ := h
  rw [List.mem_map] at hmem
  obtain ⟨c, _, hrec⟩ := hmem
  cases htot : rec.tot with
  | none => rw [htot] at hpred; simp at hpred
  | some t =>
    rw [htot] at hpred
    simp only [decide_eq_true_eq] at hpred
    refine ⟨t, rfl, hpred, ?_, ?_⟩
    · have : (combinedRecFor rows c).tot = some t := by rw [hrec, htot]
      unfold combinedRecFor at this
      exact List.mem_of_find?_eq_some this
    · have hfind : (combinedRecFor rows c).tot = some t := by rw [hrec, htot]
      unfold combinedRecFor at hfind
      have := List.find?_some hfind
      have hc : t.company = c := by simpa using this
      rw [hc, ← hrec, combinedRecFor_company]

theorem transactionsSummary_company_eq {rows : List Row} {t : TotalsFmt}
    (h : t ∈ transactionsSummary rows) : t = fmtTotals rows t.company := by
  obtain ⟨⟨c, _, ht⟩, _⟩ := mem_transactionsSummary.mp h
  have : t.company = c := by rw [ht, fmtTotals_company]
  rw [this, ← ht]

theorem applyFilters_eq_filter_all (ps : List (Row → Bool)) (rows : List Row) :
    applyFilters ps rows = rows.filter (fun r => ps.all (fun p => p r)) := by
  induction ps generalizing rows with
  | nil =>
    show rows = _
    simp
  | cons p ps ih =>
    show applyFilters ps (rows.filter p) = _
    rw [ih, List.filter_filter]
    apply List.filter_congr
    intro a _
    simp only [List.all_cons]
    cases p a <;> simp

theorem all_perm {ps qs : List (Row → Bool)} (h : ps.Perm qs) (r : Row) :
    ps.all (fun p => p r) = qs.all (fun p => p r) := by
  induction h with
  | nil => rfl
  | cons x h ih => simp only [List.all_cons, ih]
  | swap x y l =>
    simp only [List.all_cons]
    cases x r <;> cases y r <;> simp
  | trans h1 h2 ih1 ih2 => rw [ih1, ih2]

theorem filterPipeline_eq_applyFilters (rows : List Row) :
    filterPipeline rows = applyFilters theFilters rows := rfl

theorem filterPipeline_preds {rows : List Row} {r : Row}
    (h : r ∈ filterPipeline rows) :
    r ∈ rows ∧ regulationPred r = true ∧ categoryPred r = true ∧
      transTypePred r = true ∧ modePred r = true ∧ secPred r = true := by
  unfold filterPipeline at h
  simp only [List.mem_filter] at h
  tauto

theorem truncInt_abs_le (x : ℚ) : |(truncInt x : ℚ)| ≤ |x| := by
  unfold truncInt
  by_cases h : 0 ≤ x
  · rw [if_pos h]
    have hfl : (Rat.floor x : ℚ) ≤ x := Int.floor_le x
    have h0 : (0 : ℚ) ≤ Rat.floor x := by
      have : (Rat.floor (0 : ℚ) : ℚ) ≤ Rat.floor x := by
        exact_mod_cast Int.floor_le_floor h
      simpa using this
    rw [abs_of_nonneg h0, abs_of_nonneg h]; exact hfl
  · rw [if_neg h]
    push_neg at h
    have hx : 0 ≤ -x := by linarith
    have hfl : (Rat.floor (-x) : ℚ) ≤ -x := Int.floor_le (-x)
    have h0 : (0 : ℚ) ≤ Rat.floor (-x) := by
      have : (Rat.floor (0 : ℚ) : ℚ) ≤ Rat.floor (-x) := by
        exact_mod_cast Int.floor_le_floor hx
      simpa using this
    rw [abs_of_nonpos (by push_cast; linarith), abs_of_nonpos (le_of_lt h)]
    push_cast
    linarith



/-- Full characterization of the max-shares selection of lines 474-499:
when it reports `(n, d)`, `n` bounds every non-null share count, and the
reporting row is the first row (in original order) whose share count is
`n` and whose value is the largest value `mv` among the rows tied at `n`;
`d` is that row's date cell. -/
theorem maxSharesResult_spec {rs : List Row} {n : ℚ} {d : Option String}
    (h : maxSharesResult rs = some (n, d)) :
    (∀ r ∈ rs, ∀ m, r.shares = some m → m ≤ n) ∧
    ∃ mv r0,
      rs.find? (fun r => r.shares == some n && r.value == some mv) = some r0 ∧
      r0 ∈ rs ∧ r0.shares = some n ∧ r0.value = some mv ∧ r0.dateFrom = d ∧
      (∀ r ∈ rs, r.shares = some n → ∀ w, r.value = some w → w ≤ mv) := by
  unfold maxSharesResult at h
  split at h
  · simp at h
  · rename_i m hms
    split at h
    · simp at h
    · rename_i mv hmv
      split at h
      · simp at h
      · rename_i r0 hh
        simp only [Option.some.injEq, Prod.mk.injEq] at h
        obtain ⟨hmn, hdd⟩ := h
        subst hmn
        constructor
        · intro r hr m' hm'
          exact listMaxQ_le hms m' (List.mem_filterMap.mpr ⟨r, hr, hm'⟩)
        · have hff : ((rs.filter (fun r => r.shares == some m)).filter
              (fun r => r.value == some mv)) =
              rs.filter (fun r => (r.value == some mv) && (r.shares == some m)) := by
            rw [List.filter_filter]
          rw [hff, head?_filter_eq_find?] at hh
          refine ⟨mv, r0, ?_, ?_, ?_, ?_, hdd, ?_⟩
          · have hcg : rs.find? (fun r => r.shares == some m && r.value == some mv) =
                rs.find? (fun r => r.value == some mv && r.shares == some m) :=
              find?_congr (fun a => Bool.and_comm _ _) rs
            rw [hcg]
            exact hh
          · exact List.mem_of_find?_eq_some hh
          · have := List.find?_some hh
            simp only [Bool.and_eq_true, beq_iff_eq] at this
            exact this.2
          · have := List.find?_some hh
            simp only [Bool.and_eq_true, beq_iff_eq] at this
            exact this.1
          · intro r hr hrs w hw
            refine listMaxQ_le hmv w (List.mem_filterMap.mpr ⟨r, ?_, hw⟩)
            exact List.mem_filter.mpr ⟨hr, by simp [hrs]⟩

/-! Claim theorems. -/

/-- A row whose REGULATION cell is missing but which satisfies the four
other filters. -/
def rowMissingReg : Row :=
  { baseRow with regulation := none }

/-- C1 (counterexample): a row with a missing REGULATION value is NOT
excluded at the Regulation-exclusion stage — `astype(str)` turns NaN into
the text "nan", which differs from "7(3)" — so the row appears in the
Filtered Dataset, contradicting the claim that a missing value in any
filtered-on field causes exclusion. -/
theorem C1_counterexample :
    rowMissingReg.regulation = none ∧
      rowMissingReg ∈ filterPipeline [rowMissingReg] := by
  constructor
  · rfl
  · decide

/-- C1 (amended): for the four guarded stages (Category, TransactionType,
Mode, SecurityTypePrior) a missing value on the tested field excludes the
row from the Filtered Dataset; at the Regulation stage a missing value is
rendered as the text "nan" and passes. -/
theorem C1_missing_field_exclusion :
    (∀ (rows : List Row) (r : Row), r ∈ rows →
        (r.category = none ∨ r.transType = none ∨ r.mode = none ∨
          r.secTypePrior = none) →
        r ∉ filterPipeline rows) ∧
    (∀ r : Row, r.regulation = none → regulationPred r = true) := by
  constructor
  · intro rows r _ hmiss hmem
    obtain ⟨_, _, hcat, htt, hmode, hsec⟩ := filterPipeline_preds hmem
    rcases hmiss with h | h | h | h
    · unfold categoryPred at hcat
      rw [h] at hcat
      simp at hcat
    · unfold transTypePred at htt
      rw [h] at htt
      simp at htt
    · unfold modePred at hmode
      rw [h] at hmode
      simp at hmode
    · unfold secPred at hsec
      rw [h] at hsec
      simp at hsec
  · intro r h
    unfold regulationPred
    rw [h]
    decide

/-- C1 witness: a concrete row missing all four guarded fields is kept
out of the pipeline, and a concrete missing-REGULATION row passes the
regulation predicate. -/
theorem C1_witness :
    ({ baseRow with category := none } : Row) ∉
        filterPipeline [{ baseRow with category := none }] ∧
      regulationPred rowMissingReg = true :=
  ⟨C1_missing_field_exclusion.1 _ _ (by decide) (Or.inl rfl),
   C1_missing_field_exclusion.2 rowMissingReg rfl⟩

/-- Buy row achieving the maximum value (but not the maximum shares). -/
def maxVRow1 : Row :=
  { baseRow with value := some 100, shares := some 1,
                 dateFrom := some "05-MAY-2024" }

/-- Buy row achieving the maximum share count (but not the max value). -/
def maxVRow2 : Row :=
  { baseRow with value := some 50, shares := some 10,
                 dateFrom := some "06-JUN-2024" }

/-- C2 (counterexample): the per-side max record captures a SINGLE date,
taken from the max-by-shares selection; the max-by-value selection does
not capture its own date. Concretely: the max value 100 is achieved only
on the row dated 05-MAY-2024, yet the only date the record holds is
06-JUN-2024, the date of the max-shares row — so the record does not
hold "the maximal value together with the date of the maximal-value
row", refuting the claimed four-fields-per-side layout. -/
theorem C2_counterexample :
    (sideMax [maxVRow1, maxVRow2]).maxValue = some 100 ∧
    (∀ r ∈ [maxVRow1, maxVRow2], r.value = some 100 →
        r.dateFrom = some "05-MAY-2024") ∧
    (sideMax [maxVRow1, maxVRow2]).maxDate = some (some "06-JUN-2024") ∧
    some ("06-JUN-2024" : String) ≠ some ("05-MAY-2024" : String) := by
  refine ⟨by decide, by decide, by decide, by decide⟩

/-- C2 (amended): per company and side the record holds THREE fields: the
maximal value (null iff the side has no row with a non-null value), the
maximal share count, and one date, which is the date of a row achieving
the maximal share count (value tie-broken); an absent side yields null
for all three fields. The max-by-value date is not captured. -/
theorem C2_max_record_fields :
    sideMax [] = ⟨none, none, none⟩ ∧
    (∀ rs : List Row, (sideMax rs).maxValue = none →
        ∀ r ∈ rs, r.value = none) ∧
    (∀ (rs : List Row) (v : ℚ), (sideMax rs).maxValue = some v →
        (∃ r ∈ rs, r.value = some v) ∧
          ∀ r ∈ rs, ∀ w, r.value = some w → w ≤ v) ∧
    (∀ (rs : List Row) (n : ℚ) (d : Option String),
        (sideMax rs).maxShares = some n → (sideMax rs).maxDate = some d →
        ∃ r0 ∈ rs, r0.shares = some n ∧ r0.dateFrom = d ∧
          ∀ r ∈ rs, ∀ m, r.shares = some m → m ≤ n) := by
  refine ⟨rfl, ?_, ?_, ?_⟩
  · intro rs h r hr
    cases rs with
    | nil => simp at hr
    | cons a t =>
      simp only [sideMax, List.isEmpty_cons, Bool.false_eq_true, if_false,
        maxValueField] at h
      rw [listMaxQ_eq_none] at h
      exact List.filterMap_eq_nil_iff.mp h r hr
  · intro rs v h
    cases rs with
    | nil => simp [sideMax] at h
    | cons a t =>
      simp only [sideMax, List.isEmpty_cons, Bool.false_eq_true, if_false,
        maxValueField] at h
      constructor
      · obtain ⟨r, hr, hv⟩ := List.mem_filterMap.mp (listMaxQ_mem h)
        exact ⟨r, hr, hv⟩
      · intro r hr w hw
        exact listMaxQ_le h w (List.mem_filterMap.mpr ⟨r, hr, hw⟩)
  · intro rs n d hn hd
    cases rs with
    | nil => simp [sideMax] at hn
    | cons a t =>
      simp only [sideMax, List.isEmpty_cons, Bool.false_eq_true, if_false,
        Option.map_eq_some'] at hn hd
      obtain ⟨p, hp, hp1⟩ := hn
      obtain ⟨q, hq, hq2⟩ := hd
      rw [hp] at hq
      obtain rfl : p = q := by injection hq
      have hpair : maxSharesResult (a :: t) = some (n, d) := by
        rw [hp, ← hp1, ← hq2]
      obtain ⟨hbound, mv, r0, _, hr0mem, hr0sh, _, hr0d, _⟩ :=
        maxSharesResult_spec hpair
      exact ⟨r0, hr0mem, hr0sh, hr0d, hbound⟩

/-- C2 witness: the amended statement applied at a concrete two-row side. -/
theorem C2_witness :
    ((∃ r ∈ [maxVRow1, maxVRow2], r.value = some 100) ∧
        ∀ r ∈ [maxVRow1, maxVRow2], ∀ w, r.value = some w → w ≤ 100) ∧
      ∃ r0 ∈ [maxVRow1, maxVRow2], r0.shares = some 10 ∧
        r0.dateFrom = some "06-JUN-2024" ∧
          ∀ r ∈ [maxVRow1, maxVRow2], ∀ m, r.shares = some m → m ≤ 10 :=
  ⟨C2_max_record_fields.2.2.1 [maxVRow1, maxVRow2] 100 (by decide),
   C2_max_record_fields.2.2.2 [maxVRow1, maxVRow2] 10 (some "06-JUN-2024")
     (by decide) (by decide)⟩

/-- Tie row with the lower value. -/
def tieRow1 : Row :=
  { baseRow with shares := some 500, value := some 1000,
                 dateFrom := some "01-JAN-2024" }

/-- Tie row with the higher value. -/
def tieRow2 : Row :=
  { baseRow with shares := some 500, value := some 2000,
                 dateFrom := some "02-JAN-2024" }

/-- C3: the max-by-shares selection takes the maximum share count, breaks
ties by the highest value, then by first position in original order, and
reports that row's share count and date; in particular, for two buy rows
with share count 500 and values 1000 and 2000, it reports shares 500 with
the date of the value-2000 row. -/
theorem C3_max_shares_tie_break :
    (∀ (rs : List Row) (n : ℚ) (d : Option String),
        maxSharesResult rs = some (n, d) →
        (∀ r ∈ rs, ∀ m, r.shares = some m → m ≤ n) ∧
        ∃ mv r0,
          rs.find? (fun r => r.shares == some n && r.value == some mv) =
              some r0 ∧
            r0 ∈ rs ∧ r0.shares = some n ∧ r0.value = some mv ∧
              r0.dateFrom = d ∧
              ∀ r ∈ rs, r.shares = some n → ∀ w, r.value = some w → w ≤ mv) ∧
    maxSharesResult [tieRow1, tieRow2] = some (500, some "02-JAN-2024") := by
  constructor
  · intro rs n d h
    exact maxSharesResult_spec h
  · decide

/-- C3 witness: the characterization applied to the concrete tie. -/
theorem C3_witness :
    (∀ r ∈ [tieRow1, tieRow2], ∀ m, r.shares = some m → m ≤ 500) ∧
    ∃ mv r0,
      [tieRow1, tieRow2].find?
          (fun r => r.shares == some 500 && r.value == some mv) = some r0 ∧
        r0 ∈ [tieRow1, tieRow2] ∧ r0.shares = some 500 ∧ r0.value = some mv ∧
          r0.dateFrom = some "02-JAN-2024" ∧
          ∀ r ∈ [tieRow1, tieRow2], r.shares = some 500 →
            ∀ w, r.value = some w → w ≤ mv :=
  C3_max_shares_tie_break.1 [tieRow1, tieRow2] 500 (some "02-JAN-2024")
    (by decide)

/-- C7: applying the five filter predicates in any permutation yields the
same final row set as the pipeline order. -/
theorem C7_order_independence (ps : List (Row → Bool))
    (h : ps.Perm theFilters) (rows : List Row) :
    applyFilters ps rows = filterPipeline rows := by
  rw [filterPipeline_eq_applyFilters, applyFilters_eq_filter_all,
    applyFilters_eq_filter_all]
  exact List.filter_congr fun r _ => all_perm h r

/-- C7 witness: the five predicates applied in reverse order on a
concrete table agree with the pipeline order. -/
theorem C7_witness :
    applyFilters theFilters.reverse
        [baseRow, rowMissingReg, { baseRow with category := none }] =
      filterPipeline
        [baseRow, rowMissingReg, { baseRow with category := none }] :=
  C7_order_independence theFilters.reverse (List.reverse_perm theFilters) _

/-- C9: when some share count is non-null but every row tied at the
maximum share count has a null value, the max-by-shares result (share
count and date) is reported as null, although a maximum share count
exists. -/
theorem C9_null_value_ties (rs : List Row) (m : ℚ)
    (hmax : listMaxQ (rs.filterMap (fun r => r.shares)) = some m)
    (hnull : ∀ r ∈ rs, r.shares = some m → r.value = none) :
    maxSharesResult rs = none ∧ (sideMax rs).maxShares = none ∧
      (sideMax rs).maxDate = none := by
  have hne : rs ≠ [] := by
    intro hrs
    rw [hrs] at hmax
    simp [listMaxQ] at hmax
  have hnil : (rs.filter (fun r => r.shares == some m)).filterMap
      (fun r => r.value) = [] := by
    rw [List.filterMap_eq_nil_iff]
    intro r hr
    obtain ⟨hrm, hsh⟩ := List.mem_filter.mp hr
    exact hnull r hrm (by simpa using hsh)
  have hmain : maxSharesResult rs = none := by
    unfold maxSharesResult
    rw [hmax]
    simp only [hnil, listMaxQ]
  refine ⟨hmain, ?_, ?_⟩ <;>
    · unfold sideMax
      rw [if_neg (by simpa [List.isEmpty_iff] using hne), hmain]
      rfl

/-- C9 witness: one buy row with shares 500 and a null value yields a
null max-by-shares report. -/
theorem C9_witness :
    maxSharesResult [{ baseRow with shares := some 500, value := none }] =
        none ∧
      (sideMax [{ baseRow with shares := some 500, value := none }]).maxShares =
        none ∧
      (sideMax [{ baseRow with shares := some 500, value := none }]).maxDate =
        none :=
  C9_null_value_ties _ 500 (by decide) (by decide)

/-- Rounding to `k` decimal places moves a value by at most half an ulp. -/
theorem roundTo_abs (k : ℕ) (x : ℚ) :
    |roundTo k x - x| ≤ 1 / (2 * 10 ^ k) := by
  have hp : (0 : ℚ) < 10 ^ k := by positivity
  have hdiff : roundTo k x - x =
      ((rhe (x * 10 ^ k) : ℚ) - x * 10 ^ k) / 10 ^ k := by
    unfold roundTo
    field_simp
    ring
  rw [hdiff, abs_div, abs_of_pos hp]
  have h2 : |(rhe (x * 10 ^ k) : ℚ) - x * 10 ^ k| / 10 ^ k ≤
      (1 / 2) / 10 ^ k := by
    gcongr
    exact rhe_abs (x * 10 ^ k)
  calc |(rhe (x * 10 ^ k) : ℚ) - x * 10 ^ k| / 10 ^ k
      ≤ (1 / 2) / 10 ^ k := h2
    _ = 1 / (2 * 10 ^ k) := by ring

/-- A buy row with a fractional share count. -/
def fracSharesRow : Row :=
  { baseRow with shares := some (9 / 10) }

/-- C4 (counterexample): the summed buy share count 0.9 is reported as 0
(`astype(int)` truncates toward zero), while its rounding is 1 — the
reported total is the truncation of the sum, not its rounding. -/
theorem C4_counterexample :
    (totalsFor [fracSharesRow] "C").totSharesBuy = 9 / 10 ∧
      (fmtTotals [fracSharesRow] "C").totSharesBuy = 0 ∧
      rhe (9 / 10) = 1 := by
  refine ⟨by decide, by decide, by decide⟩

/-- C4 (amended): in the totals formatting, value fields are rounded to 2
decimals and delta fields to 4 decimals (each within half an ulp of the
raw sum), while summed share counts are converted to integers by
truncation toward zero (within 1 of, and no larger in magnitude than, the
raw sum). -/
theorem C4_formatting (rows : List Row) (c : String) :
    ((fmtTotals rows c).totValueBuy =
        roundTo 2 (totalsFor rows c).totValueBuy ∧
      (fmtTotals rows c).totValueSell =
        roundTo 2 (totalsFor rows c).totValueSell ∧
      (fmtTotals rows c).deltaBuy = roundTo 4 (totalsFor rows c).deltaBuy ∧
      (fmtTotals rows c).deltaSell = roundTo 4 (totalsFor rows c).deltaSell ∧
      (fmtTotals rows c).totSharesBuy =
        truncInt (totalsFor rows c).totSharesBuy ∧
      (fmtTotals rows c).totSharesSell =
        truncInt (totalsFor rows c).totSharesSell) ∧
    (|(fmtTotals rows c).totValueBuy - (totalsFor rows c).totValueBuy| ≤
        1 / 200 ∧
      |(fmtTotals rows c).deltaBuy - (totalsFor rows c).deltaBuy| ≤
        1 / 20000 ∧
      |((fmtTotals rows c).totSharesBuy : ℚ) -
          (totalsFor rows c).totSharesBuy| < 1 ∧
      |((fmtTotals rows c).totSharesBuy : ℚ)| ≤
        |(totalsFor rows c).totSharesBuy|) := by
  refine ⟨⟨rfl, rfl, rfl, rfl, rfl, rfl⟩, ?_, ?_, ?_, ?_⟩
  · have h := roundTo_abs 2 (totalsFor rows c).totValueBuy
    norm_num at h
    exact h
  · have h := roundTo_abs 4 (totalsFor rows c).deltaBuy
    norm_num at h
    exact h
  · exact truncInt_abs (totalsFor rows c).totSharesBuy
  · exact truncInt_abs_le (totalsFor rows c).totSharesBuy

/-- Buy row with per-row delta 0.5. -/
def deltaRow1 : Row :=
  { baseRow with pctPrior := some 1, pctPost := some (3 / 2) }

/-- Buy row with per-row delta 0.3. -/
def deltaRow2 : Row :=
  { baseRow with pctPrior := some (3 / 2), pctPost := some (9 / 5) }

/-- C6: the aggregated delta per company and side is the sum of the
per-row differences percent-post minus percent-prior, rows with a
non-numeric percentage being excluded from the sum (not treated as 0);
for rows (prior 1.0, post 1.5) and (prior 1.5, post 1.8) the buy delta is
0.8. -/
theorem C6_delta_sum :
    (∀ (rows : List Row) (c : String),
        (totalsFor rows c).deltaBuy =
          ((buyRowsOf rows c).filterMap (fun r =>
            match r.pctPost, r.pctPrior with
            | some a, some b => some (a - b)
            | _, _ => none)).sum ∧
        (totalsFor rows c).deltaSell =
          ((sellRowsOf rows c).filterMap (fun r =>
            match r.pctPost, r.pctPrior with
            | some a, some b => some (a - b)
            | _, _ => none)).sum) ∧
    (∀ (r : Row) (rows : List Row) (c : String),
        isBuy r = true → r.company = c → rowDelta r = none →
        (totalsFor (r :: rows) c).deltaBuy = (totalsFor rows c).deltaBuy) ∧
    (totalsFor [deltaRow1, deltaRow2] "C").deltaBuy = 4 / 5 := by
  refine ⟨fun rows c => ⟨rfl, rfl⟩, ?_, by decide⟩
  intro r rows c hb hc hd
  show sumOpt rowDelta (buyRowsOf (r :: rows) c) =
    sumOpt rowDelta (buyRowsOf rows c)
  unfold buyRowsOf sumOpt
  simp [List.filter_cons, hb, hc, List.filterMap_cons, hd]

/-- C6 witness: a buy row with a missing post-percentage leaves the
company's buy delta unchanged. -/
theorem C6_witness :
    (totalsFor ([{ baseRow with pctPost := none }, deltaRow1] : List Row)
        "C").deltaBuy =
      (totalsFor [deltaRow1] "C").deltaBuy :=
  C6_delta_sum.2.1 { baseRow with pctPost := none } [deltaRow1] "C"
    (by decide) rfl rfl

/-- Sell-only row: its company has no buy activity. -/
def sellOnlyRow : Row :=
  { baseRow with transType := some "Sell", mode := some "Market Sale" }

/-- Buy row whose total value sits exactly on the threshold. -/
def atRow : Row :=
  { baseRow with value := some 9000000 }

/-- Buy row whose total value is 8,999,999.99. -/
def belowRow : Row :=
  { baseRow with value := some (899999999 / 100) }

/-- C5: the transactions summary retains exactly the companies with a buy
or sell row whose (rounded) total buy value is at least 9,000,000; a
company with no buy rows has buy total 0 and appears in neither the
transactions summary (by the equivalence) nor the combined summary; total
exactly 9,000,000 is retained, 8,999,999.99 is excluded. -/
theorem C5_materiality :
    (∀ (rows : List Row) (c : String),
        (∃ t ∈ transactionsSummary rows, t.company = c) ↔
          (c ∈ tradedCompanies rows ∧
            9000000 ≤ (fmtTotals rows c).totValueBuy)) ∧
    (∀ (rows : List Row) (c : String), buyRowsOf rows c = [] →
        (fmtTotals rows c).totValueBuy = 0 ∧
          ∀ rec ∈ combinedSummary rows, rec.company ≠ c) ∧
    (∃ t ∈ transactionsSummary [atRow], t.company = "C") ∧
    ¬(∃ t ∈ transactionsSummary [belowRow], t.company = "C") := by
  refine ⟨?_, ?_, by decide, by decide⟩
  · intro rows c
    constructor
    · rintro ⟨t, ht, hc⟩
      obtain ⟨⟨c', hc', ht'⟩, hle⟩ := mem_transactionsSummary.mp ht
      have hcc : c' = c := by
        rw [ht', fmtTotals_company] at hc
        exact hc
      subst hcc
      rw [ht'] at hle
      exact ⟨hc', hle⟩
    · rintro ⟨hc, hle⟩
      exact ⟨fmtTotals rows c,
        mem_transactionsSummary.mpr ⟨⟨c, hc, rfl⟩, hle⟩,
        fmtTotals_company rows c⟩
  · intro rows c hempty
    have hval : (fmtTotals rows c).totValueBuy = 0 := by
      show roundTo 2 (totalsFor rows c).totValueBuy = 0
      have h0 : (totalsFor rows c).totValueBuy = 0 := by
        show sumOpt (fun r => r.value) (buyRowsOf rows c) = 0
        rw [hempty]
        rfl
      rw [h0]
      decide
    refine ⟨hval, ?_⟩
    intro rec hrec hcomp
    obtain ⟨t, _, hle, hts, hcompany⟩ := mem_combinedSummary hrec
    have ht := transactionsSummary_company_eq hts
    rw [hcompany, hcomp] at ht
    rw [ht, hval] at hle
    norm_num at hle

/-- C5 witness: a company with only a sell row has buy total 0 and is
absent from the combined summary. -/
theorem C5_witness :
    (fmtTotals [sellOnlyRow] "C").totValueBuy = 0 ∧
      ∀ rec ∈ combinedSummary [sellOnlyRow], rec.company ≠ "C" :=
  C5_materiality.2.1 [sellOnlyRow] "C" (by decide)

/-- C8: schema validation fails exactly when a trimmed required column is
absent, the error lists precisely the missing columns; a permutation of
the 29 required columns is accepted, reordered to canonical order, with
no extra-column warning; on success the columns are the canonical 29 and
the warning lists exactly the unrecognized (discarded) columns. -/
theorem C8_schema_validation :
    (∀ header : List String,
        (∃ ok, validate header = Except.ok ok) ↔
          ∀ c ∈ REQUIRED_COLUMNS, c ∈ header.map stripStr) ∧
    (∀ (header : List String) (missing : List String),
        validate header = Except.error missing →
        missing ≠ [] ∧
          ∀ c, c ∈ missing ↔
            (c ∈ REQUIRED_COLUMNS ∧ c ∉ header.map stripStr)) ∧
    (∀ header : List String, header.Perm REQUIRED_COLUMNS →
        validate header = Except.ok ⟨REQUIRED_COLUMNS, []⟩) ∧
    (∀ (header : List String) (ok : SchemaOk),
        validate header = Except.ok ok →
        ok.columns = REQUIRED_COLUMNS ∧
          ∀ c, c ∈ ok.extras ↔
            (c ∈ header.map stripStr ∧ c ∉ REQUIRED_COLUMNS)) := by
  have hstrip : ∀ c ∈ REQUIRED_COLUMNS, stripStr c = c := by decide
  refine ⟨?_, ?_, ?_, ?_⟩
  · intro header
    constructor
    · rintro ⟨ok, hok⟩
      unfold validate at hok
      by_cases hmiss : REQUIRED_COLUMNS.filter
          (fun c => decide (c ∉ header.map stripStr)) = []
      · intro c hc
        have := List.filter_eq_nil_iff.mp hmiss c hc
        simpa using this
      · rw [if_neg hmiss] at hok
        simp at hok
    · intro hall
      have hmiss : REQUIRED_COLUMNS.filter
          (fun c => decide (c ∉ header.map stripStr)) = [] :=
        List.filter_eq_nil_iff.mpr (fun c hc => by simp [hall c hc])
      exact ⟨⟨REQUIRED_COLUMNS, (header.map stripStr).filter
          (fun c => decide (c ∉ REQUIRED_COLUMNS))⟩,
        by unfold validate; rw [if_pos hmiss]⟩
  · intro header missing h
    unfold validate at h
    by_cases hmiss : REQUIRED_COLUMNS.filter
        (fun c => decide (c ∉ header.map stripStr)) = []
    · rw [if_pos hmiss] at h
      simp at h
    · rw [if_neg hmiss] at h
      have hmeq : REQUIRED_COLUMNS.filter
          (fun c => decide (c ∉ header.map stripStr)) = missing := by
        injection h
      constructor
      · rw [← hmeq]
        exact hmiss
      · intro c
        rw [← hmeq, List.mem_filter]
        simp
  · intro header hperm
    have hcols : ∀ c ∈ REQUIRED_COLUMNS, c ∈ header.map stripStr := by
      intro c hc
      have hch : c ∈ header := hperm.mem_iff.mpr hc
      exact List.mem_map.mpr ⟨c, hch, hstrip c hc⟩
    have hmiss : REQUIRED_COLUMNS.filter
        (fun c => decide (c ∉ header.map stripStr)) = [] :=
      List.filter_eq_nil_iff.mpr (fun c hc => by simp [hcols c hc])
    have hext : (header.map stripStr).filter
        (fun c => decide (c ∉ REQUIRED_COLUMNS)) = [] := by
      apply List.filter_eq_nil_iff.mpr
      intro x hx
      obtain ⟨h0, hh0, hsx⟩ := List.mem_map.mp hx
      have hh0R : h0 ∈ REQUIRED_COLUMNS := hperm.subset hh0
      have hx0 : x = h0 := by rw [← hsx, hstrip h0 hh0R]
      simp [hx0, hh0R]
    unfold validate
    rw [if_pos hmiss, hext]
  · intro header ok h
    unfold validate at h
    by_cases hmiss : REQUIRED_COLUMNS.filter
        (fun c => decide (c ∉ header.map stripStr)) = []
    · rw [if_pos hmiss] at h
      have hok : (⟨REQUIRED_COLUMNS, (header.map stripStr).filter
          (fun c => decide (c ∉ REQUIRED_COLUMNS))⟩ : SchemaOk) = ok := by
        injection h
      rw [← hok]
      refine ⟨rfl, ?_⟩
      intro c
      rw [List.mem_filter]
      simp
    · rw [if_neg hmiss] at h
      simp at h

/-- C8 witness: the 29 required columns in reverse order are accepted,
reordered to canonical order, with no extra-column warning. -/
theorem C8_witness :
    validate REQUIRED_COLUMNS.reverse = Except.ok ⟨REQUIRED_COLUMNS, []⟩ :=
  C8_schema_validation.2.2.1 REQUIRED_COLUMNS.reverse
    (List.reverse_perm REQUIRED_COLUMNS)

/-- Buy row whose raw total value 8,999,999.996 rounds to 9,000,000. -/
def nearRow : Row :=
  { baseRow with value := some (8999999996 / 1000) }

/-- Default combined record for `headD`. -/
def defaultComb : CombRec :=
  ⟨"", none, none, 0, 0⟩

/-- The combined record produced for `nearRow`'s company. -/
def nearRec : CombRec :=
  (combinedSummary [nearRow]).headD defaultComb

/-- C10: the materiality comparison is applied to the buy total after
rounding to 2 decimals — every combined-summary row carries a totals
record whose (rounded) buy total is at least 9,000,000 and equals the
2-decimal rounding of the raw sum — and the raw total 8,999,999.996
rounds to 9,000,000.00 and is retained. -/
theorem C10_materiality_after_rounding :
    (∀ (rows : List Row) (rec : CombRec), rec ∈ combinedSummary rows →
        ∃ t, rec.tot = some t ∧ 9000000 ≤ t.totValueBuy ∧
          t.totValueBuy = roundTo 2 (totalsFor rows rec.company).totValueBuy) ∧
    ((totalsFor [nearRow] "C").totValueBuy = 8999999996 / 1000 ∧
      (fmtTotals [nearRow] "C").totValueBuy = 9000000 ∧
      ∃ rec ∈ combinedSummary [nearRow], rec.company = "C") := by
  constructor
  · intro rows rec hrec
    obtain ⟨t, htot, hle, hts, hcompany⟩ := mem_combinedSummary hrec
    refine ⟨t, htot, hle, ?_⟩
    have ht := transactionsSummary_company_eq hts
    rw [hcompany] at ht
    rw [ht]
    rfl
  · refine ⟨by decide, by decide, by decide⟩

/-- C10 witness: the general statement applied to the concrete
near-threshold table. -/
theorem C10_witness :
    ∃ t, nearRec.tot = some t ∧ 9000000 ≤ t.totValueBuy ∧
      t.totValueBuy = roundTo 2 (totalsFor [nearRow] nearRec.company).totValueBuy :=
  C10_materiality_after_rounding.1 [nearRow] nearRec (by decide)
